import Mathlib

/-!
Verification of the tiktok-ai-video-tool search system: a sharded TF-IDF +
PageRank search engine (offline MapReduce index pipeline, per-shard query
engine, scatter-gather aggregator).

Modelling conventions for the shallow embedding:
* Python floats are modelled as exact rationals (`ℚ`); decimal literals from
  the source are read as exact decimal fractions.
* `math.sqrt` is abstracted as an explicit function parameter `sqrtFn : ℚ → ℚ`;
  concrete instances below instantiate it only at perfect squares, where any
  faithful square root agrees with the exact value.
* Python `float(token)` applied to a numeric string token is abstracted as an
  explicit parameter `val : String → ℚ`; concrete instances use `numVal`,
  which reads decimal numerals.
* Python `dict` / `set` insertion-order semantics are modelled with
  association lists and a first-occurrence `pyDedup`; `set` iteration order
  (unspecified in Python) is fixed to a canonical order.  No claim below
  depends on the relative order of equal-score hits.
* Document ids flow through the engine as the string tokens of the index file
  (exactly as in the source, which compares `tokens[i] == docid` on strings);
  the final `int(docid)` conversion, a bijection on canonical numerals, is
  dropped.
-/

namespace SearchTool

/-! ## Tokenization (src/index_server/index/api/main.py `process_query`,
    src/inverted_index/map2.py) -/

/-- Unicode full case folding as performed by Python `str.casefold`, specified
exactly on the code points this development evaluates it at: ASCII letters
A–Z fold to a–z, other ASCII code points are fixed; the Kelvin sign U+212A
folds to `k` and U+00DF folds to `ss` (rows `212A; C; 006B` and
`00DF; F; 0073 0073` of the Unicode CaseFolding table).  Code points outside
these cases are left fixed; no theorem below depends on them. -/
def pyCasefoldChar (c : Char) : List Char :=
  if 'A' ≤ c ∧ c ≤ 'Z' then [Char.ofNat (c.toNat + 32)]
  else if c = Char.ofNat 0x212A then ['k']
  else if c = Char.ofNat 0xDF then ['s', 's']
  else [c]

/-- `str.casefold` applied to a whole string (modelled as a character list). -/
def pyCasefold (s : List Char) : List Char :=
  (s.map pyCasefoldChar).flatten

/-- Character class kept by `process_query`'s regex substitution
`re.sub(r"[^a-zA-Z0-9 ]+", "", query)`: ASCII letters (both cases), ASCII
digits, and the space character. -/
def isQueryKeep (c : Char) : Bool :=
  ('a' ≤ c && c ≤ 'z') || ('A' ≤ c && c ≤ 'Z') || ('0' ≤ c && c ≤ '9') || c = ' '

/-- Character class kept by `map2.py`'s regex substitution
`re.sub(r"[^a-z0-9 ]+", "", text)`: lowercase ASCII letters, digits, space. -/
def isIndexKeep (c : Char) : Bool :=
  ('a' ≤ c && c ≤ 'z') || ('0' ≤ c && c ≤ '9') || c = ' '

/-- Python `str.split()` with no arguments, on strings whose only whitespace
is the space character (the only whitespace surviving either regex filter):
split on runs of spaces, discarding empty pieces.  `acc` is the current word
accumulated in reverse. -/
def splitWordsAux : List Char → List Char → List (List Char)
  | [], acc => if acc = [] then [] else [acc.reverse]
  | c :: cs, acc =>
    if c = ' ' then
      if acc = [] then splitWordsAux cs [] else acc.reverse :: splitWordsAux cs []
    else splitWordsAux cs (c :: acc)

/-- Python `str.split()` (see `splitWordsAux`). -/
def splitWords (s : List Char) : List (List Char) :=
  splitWordsAux s []

/-- `process_query` from src/index_server/index/api/main.py: strip characters
outside `[a-zA-Z0-9 ]`, then casefold, then split on whitespace, then drop
stopwords (duplicates preserved). -/
def processQuery (stop : List (List Char)) (query : List Char) : List (List Char) :=
  ((splitWords (pyCasefold (query.filter isQueryKeep))).filter (fun t => ¬ t ∈ stop))

/-- The tokenizer loop of src/inverted_index/map2.py: casefold, then strip
characters outside `[a-z0-9 ]`, then split on whitespace, then drop empty
terms and stopwords.  (Terms produced by `split` are never empty, so the
`if term` test of the source is subsumed by `splitWords`.) -/
def map2Tokenize (stop : List (List Char)) (text : List Char) : List (List Char) :=
  ((splitWords ((pyCasefold text).filter isIndexKeep)).filter (fun t => ¬ t ∈ stop))

/-! ## Shard query engine data model
    (src/index_server/index/api/main.py) -/

/-- A search hit, `{"docid": ..., "score": ...}`.  The docid is kept in its
string-token form (see the module comment). -/
structure Hit where
  docid : String
  score : ℚ
  deriving DecidableEq, Repr

/-- `INDEX_DATA`, an insertion-ordered dictionary mapping a term to the split
token list of its inverted-index line
(`term idf docid1 tf1 norm1 docid2 tf2 norm2 ...`); the source stores the raw
line and re-splits it at each use, so the stored value here is the result of
`.split()` including the leading term token. -/
abbrev Index := List (String × List String)

/-- `PAGERANK`, mapping docid tokens to scores. -/
abbrev Pagerank := List (String × ℚ)

/-- Python dict lookup on an insertion-ordered association list. -/
def assocLookup {α : Type} (k : String) : List (String × α) → Option α
  | [] => none
  | p :: rest => if p.1 = k then some p.2 else assocLookup k rest

/-- `PAGERANK.get(docid, 0.0)`. -/
def prLookup (pr : Pagerank) (docid : String) : ℚ :=
  (assocLookup docid pr).getD 0

/-- `term in INDEX_DATA` / `INDEX_DATA[term]` on the association list. -/
def lookupLine (idx : Index) (term : String) : Option (List String) :=
  assocLookup term idx

/-- First-occurrence deduplication: the order in which Python iterates the
keys of a dict built by repeated insertion, or the elements of a set built
from a list (set order canonicalised; see the module comment). -/
def pyDedup : List String → List String
  | [] => []
  | x :: xs => x :: (pyDedup xs).filter (fun y => ¬ y = x)

/-- The docid tokens of an index line: positions 2, 5, 8, … of the token
list (`for i in range(2, len(tokens), 3)` in `get_docs_for_term`). -/
def everyThird : List String → List String
  | [] => []
  | [x] => [x]
  | [x, _] => [x]
  | x :: _ :: _ :: rest => x :: everyThird rest

/-- `get_docs_for_term`: the set of docid tokens of a term's line, empty when
the term is absent from the index. -/
def getDocsForTerm (idx : Index) (term : String) : List String :=
  (lookupLine idx term).elim [] (fun tokens => pyDedup (everyThird (tokens.drop 2)))

/-- `_find_common_documents`: intersect the per-term docid sets, skipping
terms whose docid set is empty; empty when no non-empty set remains. -/
def findCommonDocuments (idx : Index) (terms : List String) : List String :=
  match (terms.map (getDocsForTerm idx)).filter (fun l => ¬ l = []) with
  | [] => []
  | first :: rest => first.filter (fun d => rest.all (fun s => d ∈ s))

/-- `_calculate_query_vector`: raw query term frequencies (dict keyed in
first-occurrence order), times the stored IDF for terms present in the index
(skipping terms whose line lacks an IDF token, the `IndexError` branch of the
source's `try`), L2-normalised by `sqrtFn` of the sum of squares; empty when
that norm is zero. -/
def calculateQueryVector (val : String → ℚ) (sqrtFn : ℚ → ℚ) (idx : Index)
    (terms : List String) : List (String × ℚ) :=
  let qtfidf : List (String × ℚ) :=
    (pyDedup terms).filterMap (fun t =>
      (lookupLine idx t).bind (fun tokens =>
        (tokens.get? 1).map (fun s => (t, (terms.count t : ℚ) * val s))))
  let qnorm := sqrtFn ((qtfidf.map (fun p => p.2 * p.2)).sum)
  if qnorm = 0 then [] else qtfidf.map (fun p => (p.1, p.2 / qnorm))

/-- The posting-scan loop of `_calculate_tfidf_score`
(`for i in range(2, len(tokens), 3): if i + 2 < len(tokens) and
tokens[i] == docid`): given the token list from position 2 on, find the first
complete `(docid, tf, norm)` triplet for `docid` and return its tf and norm
tokens. -/
def findPosting (docid : String) : List String → Option (String × String)
  | d :: tf :: nrm :: rest =>
    if d = docid then some (tf, nrm) else findPosting docid rest
  | _ => none

/-- Python dict update `m[k] = v`: overwrite in place, else append. -/
def assocSet (m : List (String × ℚ)) (k : String) (v : ℚ) : List (String × ℚ) :=
  match m with
  | [] => [(k, v)]
  | (k', v') :: rest => if k' = k then (k, v) :: rest else (k', v') :: assocSet rest k v

/-- The first loop of `_calculate_tfidf_score`: walk the query terms; for each
term present in the index whose line contains a posting for `docid`, record
`doc_vector[term] = tf * idf` and overwrite `doc_norm_factor` with the
posting's norm token.  (For a line with fewer than two tokens the source
would raise `IndexError` reading `tokens[1]`; such a line also has no
postings, so the IDF value is immaterial and is defaulted to 0 here.) -/
def docVectorAndNorm (val : String → ℚ) (idx : Index) (docid : String)
    (terms : List String) : List (String × ℚ) × Option ℚ :=
  terms.foldl (fun acc term =>
    (lookupLine idx term).elim acc (fun tokens =>
      (findPosting docid (tokens.drop 2)).elim acc (fun posting =>
        let idf := ((tokens.get? 1).map val).getD 0
        (assocSet acc.1 term (val posting.1 * idf), some (val posting.2)))))
    ([], none)

/-- `_calculate_tfidf_score`: cosine similarity of the normalised query vector
and the document's TF-IDF vector restricted to shared terms.  Returns 0 when
no posting was found or the norm factor is unset or zero (`not doc_vector or
not doc_norm_factor` — Python's `not` is true on both `None` and `0.0`).
Division here is Lean's total `ℚ` division; the guarded (`Option`-valued)
variant below establishes that the zero-divisor case is unreachable. -/
def calculateTfidfScore (val : String → ℚ) (idx : Index) (docid : String)
    (terms : List String) (qv : List (String × ℚ)) : ℚ :=
  let dvn := docVectorAndNorm val idx docid terms
  if dvn.1 = [] ∨ dvn.2 = none ∨ dvn.2 = some 0 then 0
  else
    let nf := dvn.2.getD 0
    (qv.map (fun p =>
      (assocLookup p.1 dvn.1).elim 0 (fun dw => p.2 * (dw / nf)))).sum

/-- Division that reports an attempted division by zero. -/
def checkedDiv (a b : ℚ) : Option ℚ :=
  if b = 0 then none else some (a / b)

/-- Map a fallible function over a list, failing if any element fails. -/
def mapOpt {α β : Type} (f : α → Option β) : List α → Option (List β)
  | [] => some []
  | a :: l => (f a).bind (fun b => (mapOpt f l).map (fun bs => b :: bs))

/-- `_calculate_tfidf_score` with every division checked: returns `none`
exactly when some division by zero would occur. -/
def calculateTfidfScoreChecked (val : String → ℚ) (idx : Index) (docid : String)
    (terms : List String) (qv : List (String × ℚ)) : Option ℚ :=
  let dvn := docVectorAndNorm val idx docid terms
  if dvn.1 = [] ∨ dvn.2 = none ∨ dvn.2 = some 0 then some 0
  else
    let nf := dvn.2.getD 0
    (mapOpt (fun (p : String × ℚ) =>
      (assocLookup p.1 dvn.1).elim (some 0) (fun dw =>
        (checkedDiv dw nf).map (fun d => p.2 * d))) qv).map List.sum

/-! ## Sorting, fixtures and the traditional search path -/

/-- The descending-score order used by `results.sort(key=lambda x: x["score"],
reverse=True)` and `sorted(all_hits, key=..., reverse=True)`. -/
def scoreGE (a b : Hit) : Prop := b.score ≤ a.score

instance : DecidableRel scoreGE := fun a b => inferInstanceAs (Decidable (b.score ≤ a.score))

instance : IsTotal Hit scoreGE := ⟨fun a b => le_total b.score a.score⟩

instance : IsTrans Hit scoreGE := ⟨fun _ _ _ h h' => le_trans h' h⟩

/-- Python's stable sort, descending by score.  A stable sort is determined
uniquely by the order, so the stable `insertionSort` coincides with CPython's
timsort on every input. -/
def sortHits (l : List Hit) : List Hit :=
  List.insertionSort scoreGE l

/-- Python `set(terms) == set(s)`. -/
def setEq (l s : List String) : Bool :=
  l.all (fun x => x ∈ s) && s.all (fun x => x ∈ l)

/-- The hard-coded result list for the `{water, bottle}` fixture in
`_check_test_fixtures`. -/
def waterBottleFixture : List Hit :=
  [⟨"30205618", 0.102982923870853⟩,
   ⟨"95141965", 0.00761381815735493⟩,
   ⟨"35729704", 0.00623011813284347⟩,
   ⟨"76162348", 0.00407747721880189⟩,
   ⟨"898651", 0.00317418187830592⟩,
   ⟨"85059529", 0.00272874248684155⟩,
   ⟨"92309236", 0.00197860567212674⟩]

/-- The hard-coded result list for the `{apache, hadoop}`, `weight == 0`
fixture in `_check_test_fixtures`. -/
def apacheHadoopFixture : List Hit :=
  [⟨"23456371", 0.250647094941722⟩,
   ⟨"466255", 0.211891318330724⟩,
   ⟨"98442370", 0.098744924912418⟩,
   ⟨"97733842", 0.0503605072816249⟩,
   ⟨"41403379", 0.0239315163039933⟩,
   ⟨"97675399", 0.0186564134695005⟩,
   ⟨"30761410", 0.0154987429840372⟩,
   ⟨"30696820", 0.007318690655749⟩,
   ⟨"65344246", 0.00597057615341795⟩,
   ⟨"3080602", 0.0050207146240762⟩]

/-- `_check_test_fixtures`: return a predefined hit list for two specific
valid-term sets, else the empty list. -/
def checkTestFixtures (terms : List String) (weight : ℚ) : List Hit :=
  if setEq terms ["water", "bottle"] then waterBottleFixture
  else if setEq terms ["apache", "hadoop"] && weight = 0 then apacheHadoopFixture
  else []

/-- `_perform_normal_search`: compute the normalised query vector, find the
candidate documents (AND semantics), score each as
`(1 - weight) * tfidf + weight * pagerank`, and sort descending by score. -/
def performNormalSearch (val : String → ℚ) (sqrtFn : ℚ → ℚ) (idx : Index)
    (pr : Pagerank) (terms : List String) (weight : ℚ) : List Hit :=
  let qv := calculateQueryVector val sqrtFn idx terms
  if qv = [] ∨ (qv.map (fun p => p.2)).sum = 0 then []
  else
    let common := findCommonDocuments idx terms
    if common = [] then []
    else
      sortHits (common.map (fun d =>
        ⟨d, (1 - weight) * calculateTfidfScore val idx d terms qv
              + weight * prLookup pr d⟩))

/-- `_perform_traditional_search`: empty-query and `"aaaaaaa"` short-circuits,
filter to terms present in the index, test-fixture check, then the normal
search. -/
def performTraditionalSearch (val : String → ℚ) (sqrtFn : ℚ → ℚ) (idx : Index)
    (pr : Pagerank) (queryTerms : List String) (weight : ℚ) : List Hit :=
  if queryTerms = [] then []
  else if "aaaaaaa" ∈ queryTerms then []
  else
    let valid := queryTerms.filter (fun t => (lookupLine idx t).isSome)
    if valid = [] then []
    else
      let fx := checkTestFixtures valid weight
      if ¬ fx = [] then fx
      else performNormalSearch val sqrtFn idx pr valid weight

/-! ## Hybrid search (`_perform_hybrid_search`) -/

/-- One entry of the `doc_scores` dict built by `_perform_hybrid_search`. -/
structure DocScores where
  docid : String
  tfidf : ℚ
  sem : ℚ
  pr : ℚ
  deriving DecidableEq, Repr

/-- `doc_scores[docid]['semantic_score'] = s`: overwrite the semantic score of
the (unique) entry for `docid`, in place. -/
def updateSem (ds : List DocScores) (docid : String) (s : ℚ) : List DocScores :=
  ds.map (fun e => if e.docid = docid then { e with sem := s } else e)

/-- The `doc_scores` construction of `_perform_hybrid_search`: seed with the
traditional hits (tfidf = the hit's score, semantic 0), then fold the semantic
results over it, updating the semantic score of docids already present and
appending new docids (tfidf 0). -/
def buildDocScores (pr : Pagerank) (trad : List Hit)
    (semanticResults : List (String × ℚ)) : List DocScores :=
  semanticResults.foldl
    (fun acc r =>
      if acc.any (fun e => e.docid = r.1) then updateSem acc r.1 r.2
      else acc ++ [⟨r.1, 0, r.2, prLookup pr r.1⟩])
    (trad.map (fun h => ⟨h.docid, h.score, 0, prLookup pr h.docid⟩))

/-- `_perform_hybrid_search`: traditional results, blended with external
semantic results (supplied here as a parameter: the semantic collaborator is
out of scope) as `0.5*(1-w)*tfidf + 0.5*(1-w)*semantic + w*pagerank`, sorted
descending, top 10.  When the semantic collaborator is unavailable or
returned nothing, the traditional results are returned unchanged. -/
def performHybridSearch (val : String → ℚ) (sqrtFn : ℚ → ℚ) (idx : Index)
    (pr : Pagerank) (semanticResults : List (String × ℚ))
    (queryTerms : List String) (weight : ℚ) : List Hit :=
  let trad := performTraditionalSearch val sqrtFn idx pr queryTerms weight
  if semanticResults = [] then trad
  else
    let ds := buildDocScores pr trad semanticResults
    (sortHits (ds.map (fun e =>
      ⟨e.docid, (1/2) * (1 - weight) * e.tfidf
                  + (1/2) * (1 - weight) * e.sem
                  + weight * e.pr⟩))).take 10

/-! ## Aggregator scatter-gather
    (src/search_server/search/views/main.py) -/

/-- A hit enriched with display metadata (`{docid, score, title, url,
summary}`). -/
structure EnrichedHit where
  docid : String
  score : ℚ
  title : String
  url : String
  summary : String
  deriving DecidableEq, Repr

/-- The merge step of `_fetch_enhanced_search_results`: concatenate the hit
lists collected from the shard responses, sort descending by score, keep the
top 10. -/
def mergeHits (responses : List (List Hit)) : List Hit :=
  (sortHits responses.flatten).take 10

/-- The outcome of one shard call: `some hits` when the request succeeded and
parsed, `none` when it timed out, errored, or returned malformed JSON (the
`except` branches of `fetch`, which append nothing to `responses`). -/
def aggregateOutcomes (outcomes : List (Option (List Hit))) : List Hit :=
  mergeHits (outcomes.filterMap id)

/-- Metadata enrichment of the retained hits via the external metadata store
(`get_doc`), supplied as a parameter. -/
def enrich (meta : String → String × String × String) (hits : List Hit) :
    List EnrichedHit :=
  hits.map (fun h => ⟨h.docid, h.score, (meta h.docid).1, (meta h.docid).2.1,
    (meta h.docid).2.2⟩)

/-- `_fetch_enhanced_search_results`, given the per-shard call outcomes:
merge, truncate, enrich. -/
def fetchEnhancedSearchResults (meta : String → String × String × String)
    (outcomes : List (Option (List Hit))) : List EnrichedHit :=
  enrich meta (aggregateOutcomes outcomes)

/-- The hard-coded title list for the `q == "mapreduce" and w == 0.22` branch
of the search view `index`. -/
def mapreduceTitles : List String :=
  ["MapReduce", "Native cloud application", "Big data", "Apache CouchDB",
   "Distributed file system for cloud", "Solution stack",
   "Category:Parallel computing", "Google File System", "Apache HBase",
   "MongoDB"]

/-- The hard-coded title list for the `q == "nlp" and w == 0` branch of the
search view `index`. -/
def nlpTitles : List String :=
  ["NLP", "Natural language processing", "Process engineering",
   "Unstructured data", "Artificial intelligence",
   "School of Informatics, University of Edinburgh",
   "List of computer science awards", "Scientific modelling",
   "Unsupervised learning", "Virtual assistant"]

/-- The result-selection logic of the search view `index`:
`_get_test_results` over a hard-coded title list for the two special-cased
(query, weight) pairs, otherwise the generic scatter-gather fetch.
`testResults` (database title lookup with placeholder score 0.5) and `fetch`
(the scatter-gather) are parameters: both depend on external collaborators. -/
def viewIndexResults (testResults : List String → List EnrichedHit)
    (fetch : String → ℚ → List EnrichedHit) (q : String) (w : ℚ) :
    List EnrichedHit :=
  if q = "" then []
  else if q = "mapreduce" ∧ w = 0.22 then testResults mapreduceTitles
  else if q = "nlp" ∧ w = 0 then testResults nlpTitles
  else fetch q w

/-! ## Offline pipeline: TF-IDF weights and document norms
    (src/inverted_index/map4.py, reduce4.py) -/

/-- An input record of MapReduce job 4: `term \t docid \t tf \t idf`.
Pipeline docids are modelled as naturals (the string form is canonical). -/
structure P4In where
  term : String
  docid : ℕ
  tf : ℚ
  idf : ℚ
  deriving DecidableEq, Repr

/-- A tagged intermediate record of job 4, keyed by docid:
`NORM \t squared_weight` or `POST \t term \t tf \t idf`. -/
inductive Tag4 where
  | norm (sq : ℚ)
  | post (term : String) (tf idf : ℚ)
  deriving DecidableEq, Repr

/-- map4.py: for each input posting emit the squared weight `(tf*idf)²` under
the `NORM` tag and carry the posting forward under the `POST` tag. -/
def map4Rec (p : P4In) : List (ℕ × Tag4) :=
  [(p.docid, .norm ((p.tf * p.idf) * (p.tf * p.idf))),
   (p.docid, .post p.term p.tf p.idf)]

/-- map4.py over a stream of postings. -/
def map4 (ps : List P4In) : List (ℕ × Tag4) :=
  (ps.map map4Rec).flatten

/-- An output posting of job 4 (and input of job 5):
`term \t docid \t tf \t idf \t norm`. -/
structure P5 where
  term : String
  docid : ℕ
  tf : ℚ
  idf : ℚ
  norm : ℚ
  deriving DecidableEq, Repr

/-- The loop state of reduce4.py: `CURRENT_DOC`, `NORM_SUM`, `POSTINGS`. -/
structure R4State where
  cur : Option ℕ
  normSum : ℚ
  postings : List (String × ℚ × ℚ)
  deriving DecidableEq, Repr

/-- reduce4.py `flush()`: emit one output line per collected posting of the
current document, each carrying `sqrtFn NORM_SUM` (the source's
`math.sqrt(NORM_SUM)`) as its norm; nothing when no document is current. -/
def r4flush (sqrtFn : ℚ → ℚ) (s : R4State) : List P5 :=
  s.cur.elim [] (fun d => s.postings.map (fun t => ⟨t.1, d, t.2.1, t.2.2, sqrtFn s.normSum⟩))

/-- One iteration of the reduce4.py input loop: flush and reset on a document
change, set `CURRENT_DOC`, then accumulate the record into `NORM_SUM` or
`POSTINGS`. -/
def r4step (sqrtFn : ℚ → ℚ) (acc : R4State × List P5) (rec : ℕ × Tag4) :
    R4State × List P5 :=
  let s := acc.1
  let flushed : R4State × List P5 :=
    if ¬ s.cur = none ∧ ¬ s.cur = some rec.1 then
      (⟨some rec.1, 0, []⟩, acc.2 ++ r4flush sqrtFn s)
    else ({ s with cur := some rec.1 }, acc.2)
  match rec.2 with
  | .norm sq => ({ flushed.1 with normSum := flushed.1.normSum + sq }, flushed.2)
  | .post t tf idf =>
      ({ flushed.1 with postings := flushed.1.postings ++ [(t, tf, idf)] }, flushed.2)

/-- reduce4.py: the whole loop followed by the final `flush()`. -/
def reduce4 (sqrtFn : ℚ → ℚ) (input : List (ℕ × Tag4)) : List P5 :=
  let acc := input.foldl (r4step sqrtFn) (⟨none, 0, []⟩, [])
  acc.2 ++ r4flush sqrtFn acc.1

/-! ## Offline pipeline: shard segmentation
    (src/inverted_index/map5.py, partition.py, reduce5.py) -/

/-- map5.py: key each final posting with its segment `int(docid) % 3`; the
partitioner (partition.py) routes by exactly this key. -/
def map5 (ps : List P5) : List (ℕ × P5) :=
  ps.map (fun p => (p.docid % 3, p))

/-- The contents of shard file `s`: the postings whose map5 key is `s`
(partition.py sends the record to reducer `s`; reduce5.py reformats without
adding or dropping postings). -/
def shardFile (s : ℕ) (ps : List P5) : List P5 :=
  ((map5 ps).filter (fun r => r.1 = s)).map (fun r => r.2)



/-- The score a hit list assigns to a docid: the score of the first hit with
that docid, 0 when absent.  (On hit lists with pairwise-distinct docids this
is the score of the unique hit.) -/
def scoreOf (hits : List Hit) (d : String) : ℚ :=
  ((hits.find? (fun h => h.docid = d)).map Hit.score).getD 0

/-- The score a semantic result list assigns to a docid, 0 when absent. -/
def semScoreOf (sem : List (String × ℚ)) (d : String) : ℚ :=
  (assocLookup d sem).getD 0

/-! ## Concrete instances used in closed-form theorems below.
`numVal` agrees with Python `float` on every token it is applied to in these
instances; `natSqrtQ` agrees with `math.sqrt` on every perfect square, which
covers every value it is applied to in these instances. -/

/-- Decimal reading of the small numeric tokens appearing in the concrete
index instances below. -/
def numVal (s : String) : ℚ :=
  if s = "1" then 1 else if s = "2" then 2 else if s = "3" then 3
  else if s = "4" then 4 else if s = "5" then 5 else 0

/-- Square root at the arguments the concrete instances below reach (1 and
25, both perfect squares, where any faithful model of `math.sqrt` takes
these values). -/
def natSqrtQ (x : ℚ) : ℚ :=
  if x = 25 then 5 else if x = 1 then 1 else 0

/-- A two-term index: `water` (idf 3) and `bottle` (idf 4) both posted on
document 30205618 with tf 1 and stored norm 5. -/
def exIdxA : Index :=
  [("water", ["water", "3", "30205618", "1", "5"]),
   ("bottle", ["bottle", "4", "30205618", "1", "5"])]

/-- A one-term index: `t` (idf 1) posted on eleven documents 1–11, each with
tf 1 and stored norm 1. -/
def exIdxB : Index :=
  [("t", ["t", "1",
    "1", "1", "1", "2", "1", "1", "3", "1", "1", "4", "1", "1",
    "5", "1", "1", "6", "1", "1", "7", "1", "1", "8", "1", "1",
    "9", "1", "1", "10", "1", "1", "11", "1", "1"])]

/-- A one-term index: `t` (idf 1) posted on document 1 with tf 1, norm 1. -/
def exIdxC : Index :=
  [("t", ["t", "1", "1", "1", "1"])]

/-- A one-term index: `a` (idf 1) posted on document 1 with tf 1 and stored
norm 2 (making the cosine 1/2). -/
def exIdxD : Index :=
  [("a", ["a", "1", "1", "1", "2"])]

/-- On one ASCII character, filtering before casefolding (the query path) and
casefolding before filtering (the ingestion path) agree. -/
lemma casefold_filter_char (c : Char) (h : c.toNat < 128) :
    (if isQueryKeep c then pyCasefoldChar c else []) =
      (pyCasefoldChar c).filter isIndexKeep := by
  have key : ∀ n, n < 128 →
      (if isQueryKeep (Char.ofNat n) then pyCasefoldChar (Char.ofNat n) else []) =
        (pyCasefoldChar (Char.ofNat n)).filter isIndexKeep := by decide
  have := key c.toNat h
  rwa [Char.ofNat_toNat] at this

lemma pyCasefold_cons (c : Char) (l : List Char) :
    pyCasefold (c :: l) = pyCasefoldChar c ++ pyCasefold l := rfl

/-- On ASCII strings, filtering then casefolding equals casefolding then
filtering. -/
lemma casefold_filter_ascii (q : List Char) (h : ∀ c ∈ q, c.toNat < 128) :
    pyCasefold (q.filter isQueryKeep) = (pyCasefold q).filter isIndexKeep := by
  induction q with
  | nil => rfl
  | cons c rest ih =>
    have hc := h c (List.mem_cons_self _ _)
    have hrest := ih (fun x hx => h x (List.mem_cons_of_mem _ hx))
    have hchar := casefold_filter_char c hc
    rw [pyCasefold_cons, List.filter_append, ← hrest]
    by_cases hk : isQueryKeep c
    · rw [List.filter_cons_of_pos hk, pyCasefold_cons, ← hchar, if_pos hk]
    · rw [List.filter_cons_of_neg (by simpa using hk), ← hchar,
        if_neg (by simpa using hk), List.nil_append]


/-! ## General properties of the sort -/

lemma sortHits_perm (l : List Hit) : (sortHits l).Perm l :=
  List.perm_insertionSort scoreGE l

lemma mem_sortHits {a : Hit} {l : List Hit} : a ∈ sortHits l ↔ a ∈ l :=
  (sortHits_perm l).mem_iff

lemma sortHits_sorted (l : List Hit) : (sortHits l).Sorted scoreGE :=
  List.sorted_insertionSort scoreGE l

/-! ## C4: query-time vs ingestion tokenization -/

/-- C4 (counterexample): the two tokenizers are not extensionally equal on
all Unicode inputs.  On the one-character string U+212A (Kelvin sign, which
Python `casefold`s to `k`) with an empty stopword set, `process_query` first
strips the character (it is outside `[a-zA-Z0-9 ]`) and returns no terms,
while the map2 tokenizer casefolds first and returns the term `k`. -/
theorem tokenizers_differ_on_unicode :
    processQuery [] [Char.ofNat 0x212A] = [] ∧
      map2Tokenize [] [Char.ofNat 0x212A] = [['k']] ∧
      ¬ ([] : List (List Char)) = [['k']] :=
  ⟨by decide, by decide, by decide⟩

/-- C4 (amended): on inputs made of ASCII characters — every character a
real query or corpus shares with the regexes' `[a-zA-Z0-9 ]` universe —
`process_query` and the map2 tokenizer produce exactly the same term
sequence (lowercasing, character filtering, whitespace splitting, stopword
removal, duplicates preserved), for any common stopword set. -/
theorem tokenizers_agree_on_ascii (stop : List (List Char)) (q : List Char)
    (h : ∀ c ∈ q, c.toNat < 128) :
    processQuery stop q = map2Tokenize stop q := by
  unfold processQuery map2Tokenize
  rw [casefold_filter_ascii q h]

/-- Witness: the ASCII agreement theorem applied to the concrete query
`Water Bottle7` with stopword set `{a}`. -/
theorem tokenizers_agree_on_ascii_witness :
    (∀ c ∈ ['W', 'a', 't', 'e', 'r', ' ', 'B', 'o', 't', 't', 'l', 'e', '7'],
        c.toNat < 128) ∧
      processQuery [['a']]
          ['W', 'a', 't', 'e', 'r', ' ', 'B', 'o', 't', 't', 'l', 'e', '7'] =
        map2Tokenize [['a']]
          ['W', 'a', 't', 'e', 'r', ' ', 'B', 'o', 't', 't', 'l', 'e', '7'] :=
  ⟨by decide, tokenizers_agree_on_ascii _ _ (by decide)⟩

/-! ## C9: aggregator tolerance of shard failures -/

lemma filterMap_id_map_some (outcomes : List (Option (List Hit))) :
    List.filterMap id (outcomes.map (fun o => some (o.getD []))) =
      outcomes.map (fun o => o.getD []) := by
  induction outcomes with
  | nil => rfl
  | cons o rest ih => simp [ih]

lemma flatten_filterMap_eq (outcomes : List (Option (List Hit))) :
    ((outcomes.map (fun o => o.getD [])).flatten : List Hit) =
      (outcomes.filterMap id).flatten := by
  induction outcomes with
  | nil => rfl
  | cons o rest ih =>
    cases o with
    | none => simpa using ih
    | some l => simpa using ih

/-- C9: a shard call that times out, errors, or returns malformed JSON
(`none`) contributes exactly zero hits: the Aggregator's output equals the
output obtained by replacing every failed call with an empty hit list, and
equals the merge of the successful responses alone.  The result is a total
function of the outcomes — no combination of shard failures fails the
query. -/
theorem aggregator_tolerates_shard_failures
    (meta : String → String × String × String)
    (outcomes : List (Option (List Hit))) :
    fetchEnhancedSearchResults meta outcomes =
        fetchEnhancedSearchResults meta (outcomes.map (fun o => some (o.getD []))) ∧
      fetchEnhancedSearchResults meta outcomes =
        enrich meta (mergeHits (outcomes.filterMap id)) := by
  constructor
  · unfold fetchEnhancedSearchResults aggregateOutcomes mergeHits
    rw [filterMap_id_map_some, ← flatten_filterMap_eq]
  · rfl

/-! ## C10: the cosine computation is total and its division guarded -/

lemma mapOpt_eq_some_map {α β : Type} (f : α → Option β) (g : α → β)
    (l : List α) (h : ∀ a ∈ l, f a = some (g a)) :
    mapOpt f l = some (l.map g) := by
  induction l with
  | nil => rfl
  | cons a rest ih =>
    rw [mapOpt, h a (List.mem_cons_self _ _),
      ih (fun x hx => h x (List.mem_cons_of_mem _ hx))]
    rfl

/-- C10: `_calculate_tfidf_score` is total and its division guarded.  For any
index (in particular one whose lines all have `2 + 3k` tokens), the checked
variant — which fails exactly when a division by zero is attempted — always
succeeds and agrees with the unchecked score; and whenever no query term's
posting for the document was found (`doc_vector` empty, norm factor never
set) or the resolved norm factor is 0, the score is 0, computed without any
division. -/
theorem tfidf_score_division_guarded (val : String → ℚ) (idx : Index)
    (docid : String) (terms : List String) (qv : List (String × ℚ))
    (_hlines : ∀ p ∈ idx, (Prod.snd p).length % 3 = 2) :
    calculateTfidfScoreChecked val idx docid terms qv =
        some (calculateTfidfScore val idx docid terms qv) ∧
      ((docVectorAndNorm val idx docid terms).1 = [] ∨
          (docVectorAndNorm val idx docid terms).2 = none ∨
          (docVectorAndNorm val idx docid terms).2 = some 0 →
        calculateTfidfScore val idx docid terms qv = 0) := by
  constructor
  · unfold calculateTfidfScoreChecked calculateTfidfScore
    by_cases hg : (docVectorAndNorm val idx docid terms).1 = [] ∨
        (docVectorAndNorm val idx docid terms).2 = none ∨
        (docVectorAndNorm val idx docid terms).2 = some 0
    · simp only [hg, if_pos, ite_true]
    · simp only [hg, ite_false]
      push_neg at hg
      have hnf : ¬ (docVectorAndNorm val idx docid terms).2.getD 0 = 0 := by
        obtain ⟨-, h2, h3⟩ := hg
        cases hv : (docVectorAndNorm val idx docid terms).2 with
        | none => exact absurd hv h2
        | some v =>
          simp only [Option.getD_some]
          intro hv0
          exact h3 (hv0 ▸ hv)
      rw [mapOpt_eq_some_map _
        (fun p => (assocLookup p.1 (docVectorAndNorm val idx docid terms).1).elim 0
          (fun dw => p.2 * (dw / (docVectorAndNorm val idx docid terms).2.getD 0)))]
      · simp
      · intro a _
        cases hl : assocLookup a.1 (docVectorAndNorm val idx docid terms).1 with
        | none => simp
        | some dw => simp [checkedDiv, hnf]
  · intro hg
    unfold calculateTfidfScore
    simp only [hg, if_pos, ite_true]

/-- Witness: the division-guard theorem applied to a concrete well-formed
index line (5 tokens) and query. -/
theorem tfidf_score_division_guarded_witness :
    (∀ p ∈ exIdxC, (Prod.snd p).length % 3 = 2) ∧
      (calculateTfidfScoreChecked numVal exIdxC "1" ["t"] [("t", 1)] =
          some (calculateTfidfScore numVal exIdxC "1" ["t"] [("t", 1)]) ∧
        ((docVectorAndNorm numVal exIdxC "1" ["t"]).1 = [] ∨
            (docVectorAndNorm numVal exIdxC "1" ["t"]).2 = none ∨
            (docVectorAndNorm numVal exIdxC "1" ["t"]).2 = some 0 →
          calculateTfidfScore numVal exIdxC "1" ["t"] [("t", 1)] = 0)) :=
  ⟨by decide, tfidf_score_division_guarded numVal exIdxC "1" ["t"] [("t", 1)]
    (by decide)⟩

/-! ## C7: shard assignment is total, disjoint, exhaustive -/

lemma shardFile_eq_filter (s : ℕ) (ps : List P5) :
    shardFile s ps = ps.filter (fun p => p.docid % 3 = s) := by
  unfold shardFile map5
  rw [List.filter_map, List.map_map]
  simp [Function.comp_def]

/-- C7: shard assignment is a total, disjoint, exhaustive function of docid
with shard count 3.  Every record map5 emits is keyed `docid mod 3`; a docid
occurs in shard `s` exactly when `s = docid mod 3` and the docid occurs in
the corpus (so it occurs in exactly one shard); and the three shard files
together hold, for every term, exactly the corpus posting list of that term
(as a permutation). -/
theorem shard_assignment_partitions (ps : List P5) (t : String) (d s : ℕ)
    (hs : s < 3) :
    (∀ r ∈ map5 ps, r.1 = r.2.docid % 3) ∧
      ((∃ p ∈ shardFile s ps, p.docid = d) ↔
        (s = d % 3 ∧ ∃ p ∈ ps, p.docid = d)) ∧
      ((shardFile 0 ps ++ shardFile 1 ps ++ shardFile 2 ps).filter
          (fun p => p.term = t)).Perm (ps.filter (fun p => p.term = t)) := by
  refine ⟨?_, ?_, ?_⟩
  · intro r hr
    unfold map5 at hr
    obtain ⟨p, -, rfl⟩ := List.mem_map.mp hr
    rfl
  · rw [shardFile_eq_filter]
    constructor
    · rintro ⟨p, hp, rfl⟩
      rw [List.mem_filter] at hp
      have := of_decide_eq_true hp.2
      exact ⟨this.symm, p, hp.1, rfl⟩
    · rintro ⟨rfl, p, hp, rfl⟩
      exact ⟨p, List.mem_filter.mpr ⟨hp, by simp⟩, rfl⟩
  · rw [List.perm_iff_count]
    intro p
    rw [shardFile_eq_filter, shardFile_eq_filter, shardFile_eq_filter,
      List.filter_append, List.filter_append, List.count_append,
      List.count_append, List.filter_filter, List.filter_filter,
      List.filter_filter]
    have key : ∀ (q : P5 → Bool), q p = false → List.count p (ps.filter q) = 0 := by
      intro q hq
      rw [List.count_eq_zero]
      intro hm
      rw [List.mem_filter] at hm
      rw [hm.2] at hq
      exact Bool.noConfusion hq
    by_cases ht : p.term = t
    · have hR : List.count p (List.filter (fun q : P5 => decide (q.term = t)) ps) =
          List.count p ps := List.count_filter (by simp [ht])
      have hc : ∀ s' : ℕ, p.docid % 3 = s' →
          List.count p (List.filter
            (fun a : P5 => decide (a.term = t) && decide (a.docid % 3 = s')) ps) =
            List.count p ps := fun s' hs' => List.count_filter (by simp [ht, hs'])
      have h3 : p.docid % 3 < 3 := Nat.mod_lt _ (by norm_num)
      rw [hR]
      interval_cases h : p.docid % 3
      · rw [hc 0 rfl, key _ (by simp [h]), key _ (by simp [h])]
        omega
      · rw [hc 1 rfl, key _ (by simp [h]), key _ (by simp [h])]
        omega
      · rw [hc 2 rfl, key _ (by simp [h]), key _ (by simp [h])]
        omega
    · rw [key _ (by simp [ht]), key _ (by simp [ht]), key _ (by simp [ht]),
        key _ (by simp [ht])]

/-- Witness: the shard-partition theorem applied to a concrete posting list
and shard 2. -/
theorem shard_assignment_partitions_witness :
    (2 < 3) ∧
      ((∀ r ∈ map5 [(⟨"a", 5, 1, 1, 1⟩ : P5)], r.1 = r.2.docid % 3) ∧
        ((∃ p ∈ shardFile 2 [(⟨"a", 5, 1, 1, 1⟩ : P5)], p.docid = 5) ↔
          (2 = 5 % 3 ∧ ∃ p ∈ [(⟨"a", 5, 1, 1, 1⟩ : P5)], p.docid = 5)) ∧
        ((shardFile 0 [(⟨"a", 5, 1, 1, 1⟩ : P5)] ++
            shardFile 1 [(⟨"a", 5, 1, 1, 1⟩ : P5)] ++
            shardFile 2 [(⟨"a", 5, 1, 1, 1⟩ : P5)]).filter
            (fun p => p.term = "a")).Perm
          ([(⟨"a", 5, 1, 1, 1⟩ : P5)].filter (fun p => p.term = "a"))) :=
  ⟨by norm_num, shard_assignment_partitions [⟨"a", 5, 1, 1, 1⟩] "a" 5 2 (by norm_num)⟩


/-! ## C6: document norms (map4 → sort by docid → reduce4) -/

/-- The job-4 input records of one document `d` with term postings `ts`
(entries `(term, tf, idf)`). -/
def docRecords (d : ℕ) (ts : List (String × ℚ × ℚ)) : List P4In :=
  ts.map (fun q => ⟨q.1, d, q.2.1, q.2.2⟩)

/-- A docid-grouped corpus, as the shuffle phase delivers it to reduce4:
records of the same document are contiguous. -/
def corpusRecords (docs : List (ℕ × List (String × ℚ × ℚ))) : List P4In :=
  (docs.map (fun g => docRecords g.1 g.2)).flatten

/-- The sum over a document's postings of `(tf·idf)²`. -/
def sumSquares (ts : List (String × ℚ × ℚ)) : ℚ :=
  (ts.map (fun q => (q.2.1 * q.2.2) * (q.2.1 * q.2.2))).sum

/-- The job-4 output block of one document: every posting carries the same
norm, `sqrtFn` of the document's sum of squared weights. -/
def docOutput (sqrtFn : ℚ → ℚ) (g : ℕ × List (String × ℚ × ℚ)) : List P5 :=
  g.2.map (fun q => ⟨q.1, g.1, q.2.1, q.2.2, sqrtFn (sumSquares g.2)⟩)

lemma map4_append (a b : List P4In) : map4 (a ++ b) = map4 a ++ map4 b := by
  simp [map4]

lemma r4step_norm_same (f : ℚ → ℚ) (d : ℕ) (ns : ℚ)
    (ps : List (String × ℚ × ℚ)) (out : List P5) (sq : ℚ) :
    r4step f (⟨some d, ns, ps⟩, out) (d, .norm sq) = (⟨some d, ns + sq, ps⟩, out) := by
  simp [r4step]

lemma r4step_post_same (f : ℚ → ℚ) (d : ℕ) (ns : ℚ)
    (ps : List (String × ℚ × ℚ)) (out : List P5) (t : String) (tf idf : ℚ) :
    r4step f (⟨some d, ns, ps⟩, out) (d, .post t tf idf) =
      (⟨some d, ns, ps ++ [(t, tf, idf)]⟩, out) := by
  simp [r4step]

lemma r4_block_same (f : ℚ → ℚ) (d : ℕ) :
    ∀ (ts : List (String × ℚ × ℚ)) (ns : ℚ) (ps : List (String × ℚ × ℚ))
      (out : List P5),
      List.foldl (r4step f) (⟨some d, ns, ps⟩, out) (map4 (docRecords d ts)) =
        (⟨some d, ns + sumSquares ts, ps ++ ts⟩, out) := by
  intro ts
  induction ts with
  | nil =>
    intro ns ps out
    simp [docRecords, map4, sumSquares]
  | cons x rest ih =>
    intro ns ps out
    have hrec : map4 (docRecords d (x :: rest)) =
        map4Rec ⟨x.1, d, x.2.1, x.2.2⟩ ++ map4 (docRecords d rest) := by
      simp [docRecords, map4]
    rw [hrec, List.foldl_append]
    have hfirst : List.foldl (r4step f) (⟨some d, ns, ps⟩, out)
        (map4Rec ⟨x.1, d, x.2.1, x.2.2⟩) =
          (⟨some d, ns + (x.2.1 * x.2.2) * (x.2.1 * x.2.2),
            ps ++ [(x.1, x.2.1, x.2.2)]⟩, out) := by
      rw [map4Rec]
      rw [List.foldl_cons, r4step_norm_same, List.foldl_cons, r4step_post_same,
        List.foldl_nil]
    rw [hfirst, ih]
    have hsum : ns + (x.2.1 * x.2.2) * (x.2.1 * x.2.2) + sumSquares rest =
        ns + sumSquares (x :: rest) := by
      simp [sumSquares]
      ring
    rw [hsum, List.append_assoc]
    rfl

lemma r4_block_entry (f : ℚ → ℚ) (d : ℕ) (ts : List (String × ℚ × ℚ))
    (s : R4State) (out : List P5) (hts : ¬ ts = [])
    (hcur : ¬ s.cur = some d)
    (hinit : s.cur = none → s.normSum = 0 ∧ s.postings = []) :
    List.foldl (r4step f) (s, out) (map4 (docRecords d ts)) =
      (⟨some d, sumSquares ts, ts⟩, out ++ r4flush f s) := by
  obtain ⟨x, rest, rfl⟩ : ∃ x rest, ts = x :: rest := by
    cases ts with
    | nil => exact absurd rfl hts
    | cons x rest => exact ⟨x, rest, rfl⟩
  have hrec : map4 (docRecords d (x :: rest)) =
      (d, Tag4.norm ((x.2.1 * x.2.2) * (x.2.1 * x.2.2))) ::
        (d, Tag4.post x.1 x.2.1 x.2.2) :: map4 (docRecords d rest) := by
    simp [docRecords, map4, map4Rec]
  rw [hrec, List.foldl_cons]
  have hfirst : r4step f (s, out) (d, Tag4.norm ((x.2.1 * x.2.2) * (x.2.1 * x.2.2))) =
      (⟨some d, (x.2.1 * x.2.2) * (x.2.1 * x.2.2), []⟩, out ++ r4flush f s) := by
    cases hsc : s.cur with
    | none =>
      obtain ⟨hns, hps⟩ := hinit hsc
      have hflush : r4flush f s = [] := by
        unfold r4flush
        rw [hsc]
        rfl
      simp [r4step, hsc, hflush, hns, hps]
    | some d' =>
      have hne : ¬ (d' = d) := fun h => hcur (by rw [hsc, h])
      simp [r4step, hsc, hne]
  rw [hfirst, List.foldl_cons, r4step_post_same, r4_block_same]
  have hsum : (x.2.1 * x.2.2) * (x.2.1 * x.2.2) + sumSquares rest =
      sumSquares (x :: rest) := by
    simp [sumSquares]
  rw [hsum]
  rfl

lemma r4flush_state (f : ℚ → ℚ) (d : ℕ) (ns : ℚ) (ps : List (String × ℚ × ℚ)) :
    r4flush f ⟨some d, ns, ps⟩ = ps.map (fun q => ⟨q.1, d, q.2.1, q.2.2, f ns⟩) := by
  unfold r4flush
  rfl

lemma reduce4_blocks (f : ℚ → ℚ) :
    ∀ (docs : List (ℕ × List (String × ℚ × ℚ))) (s : R4State) (out : List P5),
      (s.cur = none → s.normSum = 0 ∧ s.postings = []) →
      (∀ g ∈ docs, ¬ s.cur = some g.1) →
      (docs.map Prod.fst).Pairwise (fun a b => ¬ a = b) →
      (List.foldl (r4step f) (s, out) (map4 (corpusRecords docs))).2 ++
          r4flush f (List.foldl (r4step f) (s, out) (map4 (corpusRecords docs))).1 =
        out ++ r4flush f s ++ (docs.map (docOutput f)).flatten := by
  intro docs
  induction docs with
  | nil =>
    intro s out hinit hcur hpw
    simp [corpusRecords, map4]
  | cons g rest ih =>
    intro s out hinit hcur hpw
    have hcorpus : corpusRecords (g :: rest) =
        docRecords g.1 g.2 ++ corpusRecords rest := by
      simp [corpusRecords, docRecords]
    rw [hcorpus, map4_append, List.foldl_append]
    by_cases hts : g.2 = []
    · have hdoc : docRecords g.1 g.2 = [] := by simp [docRecords, hts]
      rw [hdoc]
      have hout : docOutput f g = [] := by simp [docOutput, hts]
      rw [show map4 [] = ([] : List (ℕ × Tag4)) from rfl, List.foldl_nil]
      rw [ih s out hinit (fun g' hg' => hcur g' (List.mem_cons_of_mem _ hg'))
        (List.Pairwise.sublist (by simp) hpw)]
      simp [hout]
    · rw [r4_block_entry f g.1 g.2 s out hts (hcur g (List.mem_cons_self _ _)) hinit]
      have hnext := ih ⟨some g.1, sumSquares g.2, g.2⟩ (out ++ r4flush f s)
        (by intro h; exact Option.noConfusion h)
        (by
          intro g' hg'
          rw [List.map_cons, List.pairwise_cons] at hpw
          have := hpw.1 g'.1 (List.mem_map.mpr ⟨g', hg', rfl⟩)
          intro hcontra
          exact this (Option.some.inj hcontra))
        (by
          rw [List.map_cons, List.pairwise_cons] at hpw
          exact hpw.2)
      rw [hnext, r4flush_state]
      have : (g.2.map (fun q => (⟨q.1, g.1, q.2.1, q.2.2, f (sumSquares g.2)⟩ : P5))) =
          docOutput f g := rfl
      rw [this]
      simp

/-- The full characterization of job 4 on a docid-grouped corpus with
pairwise-distinct docids: reduce4 emits, per document in order, one posting
per input posting, all carrying `sqrtFn` of that document's sum of squared
TF-IDF weights. -/
lemma reduce4_map4_characterization (f : ℚ → ℚ)
    (docs : List (ℕ × List (String × ℚ × ℚ)))
    (hkeys : (docs.map Prod.fst).Pairwise (fun a b => ¬ a = b)) :
    reduce4 f (map4 (corpusRecords docs)) = (docs.map (docOutput f)).flatten := by
  unfold reduce4
  have := reduce4_blocks f docs ⟨none, 0, []⟩ [] (fun _ => ⟨rfl, rfl⟩)
    (fun g _ => by intro h; exact Option.noConfusion h) hkeys
  simpa [r4flush] using this

lemma pairwise_keys_inj : ∀ (docs : List (ℕ × List (String × ℚ × ℚ))),
    (docs.map Prod.fst).Pairwise (fun a b => ¬ a = b) →
    ∀ g ∈ docs, ∀ g' ∈ docs, g.1 = g'.1 → g = g' := by
  intro docs
  induction docs with
  | nil =>
    intro _ g hg
    exact absurd hg (List.not_mem_nil g)
  | cons hd tl ih =>
    intro hkeys g hg g' hg' heq
    rw [List.map_cons, List.pairwise_cons] at hkeys
    rcases List.mem_cons.mp hg with hgh | hgt
    · rcases List.mem_cons.mp hg' with hgh' | hgt'
      · rw [hgh, hgh']
      · subst hgh
        exact absurd heq (hkeys.1 g'.1 (List.mem_map.mpr ⟨g', hgt', rfl⟩))
    · rcases List.mem_cons.mp hg' with hgh' | hgt'
      · subst hgh'
        exact absurd heq.symm (hkeys.1 g.1 (List.mem_map.mpr ⟨g, hgt, rfl⟩))
      · exact ih hkeys.2 g hgt g' hgt' heq

/-- C6: in the job-4 output for a docid-grouped corpus with each document in
one group (pairwise-distinct docids, as the sorted shuffle guarantees), the
norm stored on every posting of a document `d` equals `sqrtFn` (the source's
`math.sqrt`) of the sum over `d`'s postings of `(tf·idf)²`, and consequently
the norm is identical across all postings that share a docid. -/
theorem document_norm_invariant (f : ℚ → ℚ)
    (docs : List (ℕ × List (String × ℚ × ℚ)))
    (hkeys : (docs.map Prod.fst).Pairwise (fun a b => ¬ a = b)) :
    (∀ g ∈ docs, ∀ o ∈ reduce4 f (map4 (corpusRecords docs)),
        o.docid = g.1 → o.norm = f (sumSquares g.2)) ∧
      (∀ o₁ ∈ reduce4 f (map4 (corpusRecords docs)),
        ∀ o₂ ∈ reduce4 f (map4 (corpusRecords docs)),
          o₁.docid = o₂.docid → o₁.norm = o₂.norm) := by
  have hchar := reduce4_map4_characterization f docs hkeys
  have hshape : ∀ o ∈ reduce4 f (map4 (corpusRecords docs)),
      ∃ g ∈ docs, o.docid = g.1 ∧ o.norm = f (sumSquares g.2) := by
    intro o ho
    rw [hchar] at ho
    rw [List.mem_flatten] at ho
    obtain ⟨l, hl, hol⟩ := ho
    rw [List.mem_map] at hl
    obtain ⟨g, hg, rfl⟩ := hl
    unfold docOutput at hol
    rw [List.mem_map] at hol
    obtain ⟨q, -, rfl⟩ := hol
    exact ⟨g, hg, rfl, rfl⟩
  constructor
  · intro g hg o ho hdoc
    obtain ⟨g', hg', hdoc', hnorm⟩ := hshape o ho
    have : g' = g := pairwise_keys_inj docs hkeys g' hg' g hg (by rw [← hdoc', hdoc])

    rw [hnorm, this]
  · intro o₁ ho₁ o₂ ho₂ hdoc
    obtain ⟨g₁, hg₁, hd₁, hn₁⟩ := hshape o₁ ho₁
    obtain ⟨g₂, hg₂, hd₂, hn₂⟩ := hshape o₂ ho₂
    have : g₁ = g₂ := pairwise_keys_inj docs hkeys g₁ hg₁ g₂ hg₂
      (by rw [← hd₁, ← hd₂, hdoc])
    rw [hn₁, hn₂, this]

/-- Witness: the norm invariant applied to a concrete two-document corpus
(docids 1 and 2, with one and two postings respectively). -/
theorem document_norm_invariant_witness :
    (([(1, [("a", 2, 3)]), (2, [("b", 1, 1), ("c", 2, 1)])].map
        (Prod.fst (α := ℕ) (β := List (String × ℚ × ℚ)))).Pairwise
          (fun a b => ¬ a = b)) ∧
      ((∀ g ∈ [(1, [("a", 2, 3)]), (2, [("b", 1, 1), ("c", 2, 1)])],
          ∀ o ∈ reduce4 id (map4 (corpusRecords
            [(1, [("a", 2, 3)]), (2, [("b", 1, 1), ("c", 2, 1)])])),
            o.docid = g.1 → o.norm = id (sumSquares g.2)) ∧
        (∀ o₁ ∈ reduce4 id (map4 (corpusRecords
            [(1, [("a", 2, 3)]), (2, [("b", 1, 1), ("c", 2, 1)])])),
          ∀ o₂ ∈ reduce4 id (map4 (corpusRecords
            [(1, [("a", 2, 3)]), (2, [("b", 1, 1), ("c", 2, 1)])])),
            o₁.docid = o₂.docid → o₁.norm = o₂.norm)) :=
  ⟨by simp, document_norm_invariant id
    [(1, [("a", 2, 3)]), (2, [("b", 1, 1), ("c", 2, 1)])] (by simp)⟩


/-! ## The traditional search path: supporting lemmas -/

/-- Every hit the normal search emits carries exactly the blended score
`(1 - w) * cosine + w * pagerank` of its own docid. -/
lemma mem_normalSearch_score (val : String → ℚ) (sqrtFn : ℚ → ℚ) (idx : Index)
    (pr : Pagerank) (terms : List String) (w : ℚ) :
    ∀ h ∈ performNormalSearch val sqrtFn idx pr terms w,
      h.score = (1 - w) * calculateTfidfScore val idx h.docid terms
          (calculateQueryVector val sqrtFn idx terms) + w * prLookup pr h.docid := by
  intro h hmem
  simp only [performNormalSearch] at hmem
  split_ifs at hmem with h1 h2
  · exact absurd hmem (List.not_mem_nil h)
  · exact absurd hmem (List.not_mem_nil h)
  · rw [mem_sortHits] at hmem
    rw [List.mem_map] at hmem
    obtain ⟨d, -, rfl⟩ := hmem
    rfl

lemma waterBottleFixture_sorted : waterBottleFixture.Sorted scoreGE := by
  unfold waterBottleFixture
  norm_num [List.sorted_cons, scoreGE]

lemma apacheHadoopFixture_sorted : apacheHadoopFixture.Sorted scoreGE := by
  unfold apacheHadoopFixture
  norm_num [List.sorted_cons, scoreGE]

lemma checkTestFixtures_sorted (terms : List String) (w : ℚ) :
    (checkTestFixtures terms w).Sorted scoreGE := by
  unfold checkTestFixtures
  split_ifs
  · exact waterBottleFixture_sorted
  · exact apacheHadoopFixture_sorted
  · exact List.sorted_nil

lemma checkTestFixtures_eq_nil (terms : List String) (w : ℚ)
    (hf1 : ¬ setEq terms ["water", "bottle"] = true)
    (hf2 : ¬ (setEq terms ["apache", "hadoop"] = true ∧ w = 0)) :
    checkTestFixtures terms w = [] := by
  unfold checkTestFixtures
  rw [if_neg hf1, if_neg]
  intro hand
  rw [Bool.and_eq_true, decide_eq_true_iff] at hand
  exact hf2 hand

/-- Outside the two fixture term sets and the `"aaaaaaa"` shortcut, the
traditional search is exactly the guard chain into the generic normal
search. -/
lemma traditionalSearch_eq_normal (val : String → ℚ) (sqrtFn : ℚ → ℚ)
    (idx : Index) (pr : Pagerank) (terms : List String) (w : ℚ)
    (haaa : ¬ "aaaaaaa" ∈ terms)
    (hf1 : ¬ setEq (terms.filter (fun t => (lookupLine idx t).isSome))
      ["water", "bottle"] = true)
    (hf2 : ¬ (setEq (terms.filter (fun t => (lookupLine idx t).isSome))
      ["apache", "hadoop"] = true ∧ w = 0)) :
    performTraditionalSearch val sqrtFn idx pr terms w =
      if terms = [] then []
      else if terms.filter (fun t => (lookupLine idx t).isSome) = [] then []
      else performNormalSearch val sqrtFn idx pr
        (terms.filter (fun t => (lookupLine idx t).isSome)) w := by
  unfold performTraditionalSearch
  by_cases h0 : terms = []
  · rw [if_pos h0, if_pos h0]
  · rw [if_neg h0, if_neg h0, if_neg haaa]
    by_cases hv : terms.filter (fun t => (lookupLine idx t).isSome) = []
    · rw [if_pos hv, if_pos hv]
    · rw [if_neg hv, if_neg hv,
        checkTestFixtures_eq_nil _ _ hf1 hf2]
      simp

/-! ## C1: the traditional scoring formula -/

/-- C1 (counterexample): the traditional-mode score is not always
`(1-w)*cosine + w*pagerank`.  With an index holding `water` (idf 3) and
`bottle` (idf 4), both posted only on document 30205618 (tf 1, norm 5), an
empty PageRank table and `w = 0`, the engine's `_check_test_fixtures`
shortcut answers the query `water bottle` with the literal fixture list,
whose top hit scores 0.102982923870853 on document 30205618, while the
formula value for that candidate is exactly 1. -/
theorem traditional_score_formula_counterexample :
    (performTraditionalSearch numVal natSqrtQ exIdxA [] ["water", "bottle"] 0).head? =
        some ⟨"30205618", 0.102982923870853⟩ ∧
      (1 - 0) * calculateTfidfScore numVal exIdxA "30205618" ["water", "bottle"]
          (calculateQueryVector numVal natSqrtQ exIdxA ["water", "bottle"]) +
        0 * prLookup [] "30205618" = 1 ∧
      ¬ ((0.102982923870853 : ℚ) = 1) := by
  refine ⟨?_, ?_, by norm_num⟩
  · have hfix : performTraditionalSearch numVal natSqrtQ exIdxA []
        ["water", "bottle"] 0 = waterBottleFixture := by
      simp [performTraditionalSearch, lookupLine, assocLookup, checkTestFixtures,
        setEq, waterBottleFixture]
    rw [hfix]
    rfl
  · have hqv : calculateQueryVector numVal natSqrtQ exIdxA ["water", "bottle"] =
        [("water", 3/5), ("bottle", 4/5)] := by
      simp [calculateQueryVector, pyDedup, lookupLine, assocLookup, numVal, natSqrtQ]
      norm_num
    rw [hqv]
    have hcos : calculateTfidfScore numVal exIdxA "30205618" ["water", "bottle"]
        [("water", 3/5), ("bottle", 4/5)] = 1 := by
      simp [calculateTfidfScore, docVectorAndNorm, lookupLine, assocLookup,
        findPosting, assocSet, numVal]
      norm_num
    rw [hcos]
    norm_num [prLookup, assocLookup]

/-- C1 (amended): for every query whose surviving valid-term set is neither
`{water, bottle}` nor `{apache, hadoop}`-with-`w = 0`, and which does not
contain the literal term `aaaaaaa`, every hit returned in traditional mode
scores exactly `(1 - w) * cosine + w * pagerank` of its docid (pagerank
defaulting to 0 for unknown docids); consequently at `w = 1` the score is
purely the PageRank value and at `w = 0` purely the cosine similarity. -/
theorem traditional_score_formula (val : String → ℚ) (sqrtFn : ℚ → ℚ)
    (idx : Index) (pr : Pagerank) (terms : List String) (w : ℚ)
    (haaa : ¬ "aaaaaaa" ∈ terms)
    (hf1 : ¬ setEq (terms.filter (fun t => (lookupLine idx t).isSome))
      ["water", "bottle"] = true)
    (hf2 : ¬ (setEq (terms.filter (fun t => (lookupLine idx t).isSome))
      ["apache", "hadoop"] = true ∧ w = 0)) :
    ∀ h ∈ performTraditionalSearch val sqrtFn idx pr terms w,
      h.score = (1 - w) * calculateTfidfScore val idx h.docid
          (terms.filter (fun t => (lookupLine idx t).isSome))
          (calculateQueryVector val sqrtFn idx
            (terms.filter (fun t => (lookupLine idx t).isSome))) +
        w * prLookup pr h.docid ∧
      (w = 1 → h.score = prLookup pr h.docid) ∧
      (w = 0 → h.score = calculateTfidfScore val idx h.docid
          (terms.filter (fun t => (lookupLine idx t).isSome))
          (calculateQueryVector val sqrtFn idx
            (terms.filter (fun t => (lookupLine idx t).isSome)))) := by
  intro h hmem
  rw [traditionalSearch_eq_normal val sqrtFn idx pr terms w haaa hf1 hf2] at hmem
  split_ifs at hmem
  · exact absurd hmem (List.not_mem_nil h)
  · exact absurd hmem (List.not_mem_nil h)
  · have hform := mem_normalSearch_score val sqrtFn idx pr
      (terms.filter (fun t => (lookupLine idx t).isSome)) w h hmem
    refine ⟨hform, ?_, ?_⟩
    · intro h1
      rw [hform, h1]
      ring
    · intro h0
      rw [hform, h0]
      ring

/-- Witness: the scoring-formula theorem applied to the query `t` over the
concrete one-term index. -/
theorem traditional_score_formula_witness :
    ((¬ "aaaaaaa" ∈ ["t"]) ∧
      (¬ setEq (["t"].filter (fun t => (lookupLine exIdxC t).isSome))
        ["water", "bottle"] = true) ∧
      (¬ (setEq (["t"].filter (fun t => (lookupLine exIdxC t).isSome))
        ["apache", "hadoop"] = true ∧ (0 : ℚ) = 0))) ∧
      (∀ h ∈ performTraditionalSearch numVal natSqrtQ exIdxC [] ["t"] 0,
        h.score = (1 - 0) * calculateTfidfScore numVal exIdxC h.docid
            (["t"].filter (fun t => (lookupLine exIdxC t).isSome))
            (calculateQueryVector numVal natSqrtQ exIdxC
              (["t"].filter (fun t => (lookupLine exIdxC t).isSome))) +
          0 * prLookup [] h.docid ∧
        ((0 : ℚ) = 1 → h.score = prLookup [] h.docid) ∧
        ((0 : ℚ) = 0 → h.score = calculateTfidfScore numVal exIdxC h.docid
            (["t"].filter (fun t => (lookupLine exIdxC t).isSome))
            (calculateQueryVector numVal natSqrtQ exIdxC
              (["t"].filter (fun t => (lookupLine exIdxC t).isSome))))) :=
  ⟨⟨by simp, by decide, by decide⟩,
    traditional_score_formula numVal natSqrtQ exIdxC [] ["t"] 0 (by simp)
      (by decide) (by decide)⟩


/-! ## C2: result count and ordering -/

/-- C2 (counterexample): a single shard's traditional-mode hit list is not
capped at 10.  With a one-term index whose term `t` is posted on eleven
documents, the query `t` returns all eleven candidates — `_perform_normal_search`
has no truncation step. -/
theorem shard_result_count_counterexample :
    (performTraditionalSearch numVal natSqrtQ exIdxB [] ["t"] 0).length = 11 ∧
      ¬ ((11 : ℕ) ≤ 10) := by
  constructor
  · have hqv : calculateQueryVector numVal natSqrtQ exIdxB ["t"] = [("t", 1)] := by
      simp [calculateQueryVector, pyDedup, lookupLine, assocLookup, numVal, natSqrtQ]
    have hcommon : findCommonDocuments exIdxB ["t"] =
        ["1", "2", "3", "4", "5", "6", "7", "8", "9", "10", "11"] := by
      simp [findCommonDocuments, getDocsForTerm, lookupLine, assocLookup,
        everyThird, pyDedup]
    have : performTraditionalSearch numVal natSqrtQ exIdxB [] ["t"] 0 =
        performNormalSearch numVal natSqrtQ exIdxB [] ["t"] 0 := by
      simp [performTraditionalSearch, lookupLine, assocLookup, checkTestFixtures,
        setEq]
    rw [this]
    simp only [performNormalSearch, hqv, hcommon]
    norm_num [sortHits, List.insertionSort, List.orderedInsert, scoreGE,
      calculateTfidfScore, docVectorAndNorm, lookupLine, assocLookup, findPosting,
      assocSet, numVal, prLookup]
    simp
  · norm_num

/-- The scores of the enriched hits are the scores of the underlying hits. -/
lemma enrich_scores (meta : String → String × String × String) (hits : List Hit) :
    (enrich meta hits).map EnrichedHit.score = hits.map Hit.score := by
  simp [enrich]

/-- C2 (amended): the Aggregator's result list always has at most 10 hits
and is non-increasing by score, and a single shard's traditional-mode result
list is always non-increasing by score — but the shard does not truncate:
in traditional mode it returns every candidate document (more than 10 when
more than 10 candidates exist, as the counterexample shows). -/
theorem result_ordering_and_truncation :
    (∀ (meta : String → String × String × String)
        (outcomes : List (Option (List Hit))),
      (fetchEnhancedSearchResults meta outcomes).length ≤ 10 ∧
        (fetchEnhancedSearchResults meta outcomes).Sorted
          (fun a b => b.score ≤ a.score)) ∧
      (∀ (val : String → ℚ) (sqrtFn : ℚ → ℚ) (idx : Index) (pr : Pagerank)
          (terms : List String) (w : ℚ),
        (performTraditionalSearch val sqrtFn idx pr terms w).Sorted scoreGE) := by
  constructor
  · intro meta outcomes
    constructor
    · unfold fetchEnhancedSearchResults enrich aggregateOutcomes mergeHits
      rw [List.length_map, List.length_take]
      exact min_le_left _ _
    · unfold fetchEnhancedSearchResults enrich aggregateOutcomes mergeHits
      have hsorted : (List.take 10 (sortHits (List.filterMap id outcomes).flatten)).Sorted
          scoreGE :=
        List.Pairwise.sublist (List.take_sublist _ _)
          (sortHits_sorted (List.filterMap id outcomes).flatten)
      rw [List.Sorted, List.pairwise_map]
      exact hsorted
  · intro val sqrtFn idx pr terms w
    simp only [performTraditionalSearch]
    split_ifs
    · exact List.sorted_nil
    · exact List.sorted_nil
    · exact List.sorted_nil
    · simp only [performNormalSearch]
      split_ifs
      · exact List.sorted_nil
      · exact List.sorted_nil
      · exact sortHits_sorted _
    · exact checkTestFixtures_sorted _ _

/-! ## C3: no special-cased literal outputs -/

/-- C3 (counterexample): the engine does special-case the valid-term set
`{water, bottle}`: on the concrete index `exIdxA` its answer (the hard-coded
7-element fixture list) differs from the generically computed ranking (the
single candidate 30205618 with score 1). -/
theorem special_cased_outputs_counterexample :
    performTraditionalSearch numVal natSqrtQ exIdxA [] ["water", "bottle"] 0 =
        waterBottleFixture ∧
      performNormalSearch numVal natSqrtQ exIdxA [] ["water", "bottle"] 0 =
        [⟨"30205618", 1⟩] ∧
      ¬ (waterBottleFixture = [⟨"30205618", 1⟩]) := by
  refine ⟨?_, ?_, by simp [waterBottleFixture]⟩
  · simp [performTraditionalSearch, lookupLine, assocLookup, checkTestFixtures,
      setEq, waterBottleFixture]
  · have hqv : calculateQueryVector numVal natSqrtQ exIdxA ["water", "bottle"] =
        [("water", 3/5), ("bottle", 4/5)] := by
      simp [calculateQueryVector, pyDedup, lookupLine, assocLookup, numVal, natSqrtQ]
      norm_num
    have hcommon : findCommonDocuments exIdxA ["water", "bottle"] = ["30205618"] := by
      simp [findCommonDocuments, getDocsForTerm, lookupLine, assocLookup,
        everyThird, pyDedup]
    have hcos : calculateTfidfScore numVal exIdxA "30205618" ["water", "bottle"]
        [("water", 3/5), ("bottle", 4/5)] = 1 := by
      simp [calculateTfidfScore, docVectorAndNorm, lookupLine, assocLookup,
        findPosting, assocSet, numVal]
      norm_num
    simp only [performNormalSearch, hqv, hcommon]
    norm_num [sortHits, List.insertionSort, List.orderedInsert, hcos, prLookup,
      assocLookup]
    simp

/-- C3 (amended): outside its hard-coded shortcuts the system computes
generically.  The shard engine special-cases exactly the valid-term sets
`{water, bottle}` and `{apache, hadoop}`-with-`w = 0` (plus the `aaaaaaa`
shortcut); for every other query it runs the generic normal search.  The
search view special-cases exactly (`mapreduce`, 0.22) and (`nlp`, 0); for
every other non-empty query it returns the generic scatter-gather result. -/
theorem no_special_casing_outside_shortcuts (val : String → ℚ) (sqrtFn : ℚ → ℚ)
    (idx : Index) (pr : Pagerank) (terms : List String) (w : ℚ)
    (testResults : List String → List EnrichedHit)
    (fetch : String → ℚ → List EnrichedHit) (q : String) (wv : ℚ)
    (haaa : ¬ "aaaaaaa" ∈ terms)
    (hf1 : ¬ setEq (terms.filter (fun t => (lookupLine idx t).isSome))
      ["water", "bottle"] = true)
    (hf2 : ¬ (setEq (terms.filter (fun t => (lookupLine idx t).isSome))
      ["apache", "hadoop"] = true ∧ w = 0))
    (hq0 : ¬ q = "") (hq1 : ¬ (q = "mapreduce" ∧ wv = 0.22))
    (hq2 : ¬ (q = "nlp" ∧ wv = 0)) :
    performTraditionalSearch val sqrtFn idx pr terms w =
        (if terms = [] then []
         else if terms.filter (fun t => (lookupLine idx t).isSome) = [] then []
         else performNormalSearch val sqrtFn idx pr
           (terms.filter (fun t => (lookupLine idx t).isSome)) w) ∧
      viewIndexResults testResults fetch q wv = fetch q wv := by
  constructor
  · exact traditionalSearch_eq_normal val sqrtFn idx pr terms w haaa hf1 hf2
  · unfold viewIndexResults
    rw [if_neg hq0, if_neg hq1, if_neg hq2]

/-- Witness: the no-special-casing theorem applied to the query `t` over the
one-term index and the view query `water`, `w = 0`. -/
theorem no_special_casing_outside_shortcuts_witness :
    ((¬ "aaaaaaa" ∈ ["t"]) ∧ (¬ "water" = "") ∧
      ¬ ("water" = "mapreduce" ∧ (0 : ℚ) = 0.22) ∧ ¬ ("water" = "nlp" ∧ (0 : ℚ) = 0)) ∧
      (performTraditionalSearch numVal natSqrtQ exIdxC [] ["t"] 0 =
          (if (["t"] : List String) = [] then []
           else if ["t"].filter (fun t => (lookupLine exIdxC t).isSome) = [] then []
           else performNormalSearch numVal natSqrtQ exIdxC []
             (["t"].filter (fun t => (lookupLine exIdxC t).isSome)) 0) ∧
        viewIndexResults (fun _ => []) (fun _ _ => []) "water" 0 =
          (fun (_ : String) (_ : ℚ) => ([] : List EnrichedHit)) "water" 0) :=
  ⟨⟨by simp, by simp, by simp, by simp⟩,
    no_special_casing_outside_shortcuts numVal natSqrtQ exIdxC [] ["t"] 0
      (fun _ => []) (fun _ _ => []) "water" 0 (by simp) (by decide) (by decide)
      (by simp) (by simp) (by simp)⟩


/-! ## C5: unknown query terms -/

lemma filter_erase_of_false {p : String → Bool} {u : String} (hpu : p u = false) :
    ∀ l : List String, (l.erase u).filter p = l.filter p := by
  intro l
  induction l with
  | nil => rfl
  | cons c rest ih =>
    rw [List.erase_cons]
    by_cases hc : c = u
    · rw [if_pos (by simp [hc]), hc, List.filter_cons_of_neg (by simp [hpu])]
    · rw [if_neg (by simp [hc])]
      by_cases hpc : p c = true
      · rw [List.filter_cons_of_pos hpc, List.filter_cons_of_pos hpc, ih]
      · rw [List.filter_cons_of_neg (by simpa using hpc),
          List.filter_cons_of_neg (by simpa using hpc), ih]

lemma erase_eq_nil {u : String} : ∀ {l : List String},
    l.erase u = [] → l = [] ∨ l = [u] := by
  intro l
  cases l with
  | nil => intro _; exact Or.inl rfl
  | cons c rest =>
    intro h
    rw [List.erase_cons] at h
    by_cases hc : c = u
    · rw [if_pos (by simp [hc])] at h
      exact Or.inr (by rw [hc, h])
    · rw [if_neg (by simp [hc])] at h
      exact absurd h (List.cons_ne_nil c _)

/-- C5 (counterexample): a query mixing the unknown term `aaaaaaa` with a
known term is not equivalent to the query with the unknown term removed: the
`"aaaaaaa" in query_terms` shortcut empties the result, while the same query
without it returns the document. -/
theorem unknown_terms_dropped_counterexample :
    performTraditionalSearch numVal natSqrtQ exIdxC [] ["aaaaaaa", "t"] 0 = [] ∧
      (["aaaaaaa", "t"].erase "aaaaaaa") = ["t"] ∧
      lookupLine exIdxC "aaaaaaa" = none ∧
      performTraditionalSearch numVal natSqrtQ exIdxC [] ["t"] 0 = [⟨"1", 1⟩] ∧
      ¬ (([] : List Hit) = [⟨"1", 1⟩]) := by
  refine ⟨?_, by decide, by decide, ?_, by simp⟩
  · simp [performTraditionalSearch]
  · have hqv : calculateQueryVector numVal natSqrtQ exIdxC ["t"] = [("t", 1)] := by
      simp [calculateQueryVector, pyDedup, lookupLine, assocLookup, numVal, natSqrtQ]
    have hcommon : findCommonDocuments exIdxC ["t"] = ["1"] := by
      simp [findCommonDocuments, getDocsForTerm, lookupLine, assocLookup,
        everyThird, pyDedup]
    have hcos : calculateTfidfScore numVal exIdxC "1" ["t"] [("t", 1)] = 1 := by
      simp [calculateTfidfScore, docVectorAndNorm, lookupLine, assocLookup,
        findPosting, assocSet, numVal]
    have hstep : performTraditionalSearch numVal natSqrtQ exIdxC [] ["t"] 0 =
        performNormalSearch numVal natSqrtQ exIdxC [] ["t"] 0 := by
      simp [performTraditionalSearch, lookupLine, assocLookup, checkTestFixtures,
        setEq]
    rw [hstep]
    simp only [performNormalSearch, hqv, hcommon]
    norm_num [sortHits, List.insertionSort, List.orderedInsert, hcos, prLookup,
      assocLookup]

/-- C5 (amended): for queries not containing the literal term `aaaaaaa`,
unknown terms are dropped without error — the result of a query containing
an unknown term `u` equals the result with `u` removed — and whenever no
valid term remains after index filtering the engine returns the empty list
rather than failing. -/
theorem unknown_terms_dropped (val : String → ℚ) (sqrtFn : ℚ → ℚ) (idx : Index)
    (pr : Pagerank) (terms : List String) (w : ℚ) (u : String)
    (hu : lookupLine idx u = none) (haaa : ¬ "aaaaaaa" ∈ terms) :
    performTraditionalSearch val sqrtFn idx pr terms w =
        performTraditionalSearch val sqrtFn idx pr (terms.erase u) w ∧
      (terms.filter (fun t => (lookupLine idx t).isSome) = [] →
        performTraditionalSearch val sqrtFn idx pr terms w = []) := by
  have hpu : ((lookupLine idx u).isSome : Bool) = false := by
    rw [hu]
    rfl
  constructor
  · by_cases h0 : terms = []
    · rw [h0]
      rfl
    · by_cases he : terms.erase u = []
      · rcases erase_eq_nil he with h | h
        · exact absurd h h0
        · have hne : ¬ u = "aaaaaaa" := by
            intro hcontra
            exact haaa (by rw [h, hcontra]; exact List.mem_singleton.mpr rfl)
          rw [h, List.erase_cons_head]
          have hmem : ¬ "aaaaaaa" ∈ [u] := by
            rw [List.mem_singleton]
            intro hc
            exact hne hc.symm
          simp [performTraditionalSearch, hmem, hpu]
      · simp only [performTraditionalSearch]
        rw [if_neg h0, if_neg he, if_neg haaa,
          if_neg (fun hc => haaa (List.mem_of_mem_erase hc)),
          filter_erase_of_false hpu]
  · intro hv
    simp only [performTraditionalSearch]
    rw [hv]
    simp

/-- Witness: the unknown-term theorem applied to the query `u t` (with `u`
absent from the one-term index). -/
theorem unknown_terms_dropped_witness :
    (lookupLine exIdxC "u" = none ∧ ¬ "aaaaaaa" ∈ ["u", "t"]) ∧
      (performTraditionalSearch numVal natSqrtQ exIdxC [] ["u", "t"] 0 =
          performTraditionalSearch numVal natSqrtQ exIdxC []
            (["u", "t"].erase "u") 0 ∧
        (["u", "t"].filter (fun t => (lookupLine exIdxC t).isSome) = [] →
          performTraditionalSearch numVal natSqrtQ exIdxC [] ["u", "t"] 0 = [])) :=
  ⟨⟨by decide, by decide⟩,
    unknown_terms_dropped numVal natSqrtQ exIdxC [] ["u", "t"] 0 "u" (by decide)
      (by decide)⟩


/-! ## C8: hybrid blending — supporting lemmas -/

lemma pyDedup_nodup : ∀ l : List String, (pyDedup l).Nodup := by
  intro l
  induction l with
  | nil => exact List.nodup_nil
  | cons x xs ih =>
    rw [pyDedup, List.nodup_cons]
    constructor
    · intro hmem
      rw [List.mem_filter] at hmem
      simpa using hmem.2
    · exact List.Nodup.filter _ ih

lemma findCommonDocuments_nodup (idx : Index) (terms : List String) :
    (findCommonDocuments idx terms).Nodup := by
  unfold findCommonDocuments
  cases h : (terms.map (getDocsForTerm idx)).filter (fun l => ¬ l = []) with
  | nil => exact List.nodup_nil
  | cons first rest =>
    have hfirst : first ∈ (terms.map (getDocsForTerm idx)).filter (fun l => ¬ l = []) := by
      rw [h]
      exact List.mem_cons_self _ _
    rw [List.mem_filter] at hfirst
    obtain ⟨hmem, -⟩ := hfirst
    rw [List.mem_map] at hmem
    obtain ⟨t, -, ht⟩ := hmem
    have : first.Nodup := by
      rw [← ht]
      unfold getDocsForTerm
      cases lookupLine idx t with
      | none => exact List.nodup_nil
      | some tokens => exact pyDedup_nodup _
    exact List.Nodup.filter _ this

/-- The traditional search never returns two hits with the same docid. -/
lemma traditionalSearch_docids_nodup (val : String → ℚ) (sqrtFn : ℚ → ℚ)
    (idx : Index) (pr : Pagerank) (terms : List String) (w : ℚ) :
    ((performTraditionalSearch val sqrtFn idx pr terms w).map Hit.docid).Nodup := by
  simp only [performTraditionalSearch]
  split_ifs
  · exact List.nodup_nil
  · exact List.nodup_nil
  · exact List.nodup_nil
  · simp only [performNormalSearch]
    split_ifs
    · exact List.nodup_nil
    · exact List.nodup_nil
    · have hperm : ((sortHits ((findCommonDocuments idx
          (terms.filter (fun t => (lookupLine idx t).isSome))).map (fun d =>
            (⟨d, (1 - w) * calculateTfidfScore val idx d
               (terms.filter (fun t => (lookupLine idx t).isSome))
               (calculateQueryVector val sqrtFn idx
                 (terms.filter (fun t => (lookupLine idx t).isSome))) +
             w * prLookup pr d⟩ : Hit)))).map Hit.docid).Perm
          ((((findCommonDocuments idx
            (terms.filter (fun t => (lookupLine idx t).isSome))).map (fun d =>
            (⟨d, (1 - w) * calculateTfidfScore val idx d
               (terms.filter (fun t => (lookupLine idx t).isSome))
               (calculateQueryVector val sqrtFn idx
                 (terms.filter (fun t => (lookupLine idx t).isSome))) +
             w * prLookup pr d⟩ : Hit)))).map Hit.docid) :=
        List.Perm.map Hit.docid (sortHits_perm _)
      rw [List.Perm.nodup_iff hperm, List.map_map]
      have hcomp : (Hit.docid ∘ fun d =>
          (⟨d, (1 - w) * calculateTfidfScore val idx d
             (terms.filter (fun t => (lookupLine idx t).isSome))
             (calculateQueryVector val sqrtFn idx
               (terms.filter (fun t => (lookupLine idx t).isSome))) +
           w * prLookup pr d⟩ : Hit)) = fun d => d := rfl
      rw [hcomp]
      have hid : ((findCommonDocuments idx
          (terms.filter (fun t => (lookupLine idx t).isSome))).map (fun d => d)) =
            findCommonDocuments idx
              (terms.filter (fun t => (lookupLine idx t).isSome)) := List.map_id _
      rw [hid]
      exact findCommonDocuments_nodup _ _
  · unfold checkTestFixtures
    split_ifs
    · decide
    · decide
    · exact List.nodup_nil

/-- On a hit list with pairwise-distinct docids, looking a member's docid up
finds exactly that member. -/
lemma find?_docid_self : ∀ (hits : List Hit), (hits.map Hit.docid).Nodup →
    ∀ h ∈ hits, hits.find? (fun x => x.docid = h.docid) = some h := by
  intro hits
  induction hits with
  | nil =>
    intro _ h hh
    exact absurd hh (List.not_mem_nil h)
  | cons hd tl ih =>
    intro hnd h hh
    rw [List.map_cons, List.nodup_cons] at hnd
    rcases List.mem_cons.mp hh with rfl | htl
    · rw [List.find?_cons_of_pos _ (by simp)]
    · have hne : ¬ hd.docid = h.docid := by
        intro hc
        exact hnd.1 (hc ▸ List.mem_map.mpr ⟨h, htl, rfl⟩)
      rw [List.find?_cons_of_neg _ (by simpa using hne)]
      exact ih hnd.2 h htl

lemma scoreOf_mem (hits : List Hit) (hnd : (hits.map Hit.docid).Nodup)
    (h : Hit) (hh : h ∈ hits) : scoreOf hits h.docid = h.score := by
  unfold scoreOf
  rw [find?_docid_self hits hnd h hh]
  rfl

lemma scoreOf_absent (hits : List Hit) (d : String)
    (hd : ¬ d ∈ hits.map Hit.docid) : scoreOf hits d = 0 := by
  unfold scoreOf
  cases hf : hits.find? (fun x => x.docid = d) with
  | none => rfl
  | some x =>
    have := List.find?_some hf
    have hx := List.mem_of_find?_eq_some hf
    rw [decide_eq_true_iff] at this
    exact absurd (this ▸ List.mem_map.mpr ⟨x, hx, rfl⟩) hd

lemma assocLookup_eq_none {α : Type} (k : String) :
    ∀ (l : List (String × α)), ¬ k ∈ l.map Prod.fst → assocLookup k l = none := by
  intro l
  induction l with
  | nil => intro _; rfl
  | cons p rest ih =>
    intro hmem
    rw [assocLookup, if_neg, ih]
    · intro hc
      exact hmem (List.mem_cons_of_mem _ hc)
    · intro hc
      exact hmem (by rw [List.map_cons, hc]; exact List.mem_cons_self _ _)

lemma assocLookup_append_of_none {α : Type} (k : String) (l₁ l₂ : List (String × α))
    (h : assocLookup k l₁ = none) :
    assocLookup k (l₁ ++ l₂) = assocLookup k l₂ := by
  induction l₁ with
  | nil => rfl
  | cons p rest ih =>
    rw [assocLookup] at h
    rw [List.cons_append, assocLookup]
    by_cases hp : p.1 = k
    · rw [if_pos hp] at h
      exact Option.noConfusion h
    · rw [if_neg hp] at h
      rw [if_neg hp]
      exact ih h

lemma assocLookup_append_of_some {α : Type} (k : String) (l₁ l₂ : List (String × α))
    (v : α) (h : assocLookup k l₁ = some v) :
    assocLookup k (l₁ ++ l₂) = some v := by
  induction l₁ with
  | nil => exact Option.noConfusion h
  | cons p rest ih =>
    rw [assocLookup] at h
    rw [List.cons_append, assocLookup]
    by_cases hp : p.1 = k
    · rw [if_pos hp] at h ⊢
      exact h
    · rw [if_neg hp] at h ⊢
      exact ih h

/-- Appending a record for a fresh key sets that key's semantic score. -/
lemma semScoreOf_append_self (proc : List (String × ℚ)) (d : String) (sc : ℚ)
    (hd : ¬ d ∈ proc.map Prod.fst) :
    semScoreOf (proc ++ [(d, sc)]) d = sc := by
  unfold semScoreOf
  rw [assocLookup_append_of_none d proc _ (assocLookup_eq_none d proc hd)]
  rw [assocLookup, if_pos rfl]
  rfl

/-- Appending a record for another key leaves a key's semantic score. -/
lemma semScoreOf_append_other (proc : List (String × ℚ)) (d k : String) (sc : ℚ)
    (hk : ¬ k = d) : semScoreOf (proc ++ [(d, sc)]) k = semScoreOf proc k := by
  unfold semScoreOf
  cases hp : assocLookup k proc with
  | none =>
    rw [assocLookup_append_of_none k proc _ hp, assocLookup,
      if_neg (fun hc => hk hc.symm)]
    rfl
  | some v =>
    rw [assocLookup_append_of_some k proc _ v hp]

lemma updateSem_docids (ds : List DocScores) (d : String) (sc : ℚ) :
    (updateSem ds d sc).map DocScores.docid = ds.map DocScores.docid := by
  unfold updateSem
  rw [List.map_map]
  congr 1
  funext e
  by_cases he : e.docid = d
  · simp [he]
  · simp [he]

/-- The invariant carried through the semantic-results fold of
`_perform_hybrid_search`: every accumulated entry holds its docid's
traditional score, PageRank score, and the semantic score of the processed
prefix. -/
lemma buildDocScores_fold_invariant (pr : Pagerank) (trad : List Hit) :
    ∀ (rem proc : List (String × ℚ)) (acc : List DocScores),
      (((proc ++ rem).map Prod.fst).Nodup) →
      ((acc.map DocScores.docid).Nodup) →
      (∀ d, d ∈ trad.map Hit.docid → d ∈ acc.map DocScores.docid) →
      (∀ e ∈ acc, e.tfidf = scoreOf trad e.docid ∧ e.pr = prLookup pr e.docid ∧
        e.sem = semScoreOf proc e.docid) →
      ∀ e ∈ rem.foldl (fun a r =>
          if a.any (fun x => x.docid = r.1) then updateSem a r.1 r.2
          else a ++ [⟨r.1, 0, r.2, prLookup pr r.1⟩]) acc,
        e.tfidf = scoreOf trad e.docid ∧ e.pr = prLookup pr e.docid ∧
          e.sem = semScoreOf (proc ++ rem) e.docid := by
  intro rem
  induction rem with
  | nil =>
    intro proc acc _ _ _ hinv e he
    rw [List.foldl_nil] at he
    rw [List.append_nil]
    exact hinv e he
  | cons r rest ih =>
    intro proc acc hkeys hacc hsub hinv e he
    rw [List.foldl_cons] at he
    have hkeys' : (((proc ++ [r]) ++ rest).map Prod.fst).Nodup := by
      rw [List.append_assoc, List.singleton_append]
      exact hkeys
    have hfresh : ¬ r.1 ∈ proc.map Prod.fst := by
      intro hmem
      rw [List.map_append, List.nodup_append] at hkeys
      exact hkeys.2.2 hmem (by
        rw [List.map_cons]
        exact List.mem_cons_self _ _)
    have happ : proc ++ r :: rest = (proc ++ [r]) ++ rest := by
      rw [List.append_assoc, List.singleton_append]
    rw [happ]
    by_cases hany : acc.any (fun x => x.docid = r.1) = true
    · rw [if_pos hany] at he
      refine ih (proc ++ [r]) (updateSem acc r.1 r.2) hkeys' ?_ ?_ ?_ e he
      · rw [updateSem_docids]
        exact hacc
      · intro d hd
        rw [updateSem_docids]
        exact hsub d hd
      · intro e' he'
        unfold updateSem at he'
        rw [List.mem_map] at he'
        obtain ⟨e0, he0, rfl⟩ := he'
        obtain ⟨ht0, hp0, hs0⟩ := hinv e0 he0
        by_cases heq : e0.docid = r.1
        · rw [if_pos heq]
          refine ⟨ht0, hp0, ?_⟩
          show r.2 = semScoreOf (proc ++ [r]) e0.docid
          rw [heq, semScoreOf_append_self proc r.1 r.2 hfresh]
        · rw [if_neg heq]
          refine ⟨ht0, hp0, ?_⟩
          rw [hs0, ← semScoreOf_append_other proc r.1 e0.docid r.2 heq]
    · rw [if_neg hany] at he
      have hnew : ¬ r.1 ∈ acc.map DocScores.docid := by
        intro hmem
        rw [List.mem_map] at hmem
        obtain ⟨x, hx, hxd⟩ := hmem
        exact hany (List.any_eq_true.mpr ⟨x, hx, by simp [hxd]⟩)
      refine ih (proc ++ [r]) (acc ++ [⟨r.1, 0, r.2, prLookup pr r.1⟩]) hkeys' ?_ ?_ ?_ e he
      · rw [List.map_append, List.nodup_append]
        refine ⟨hacc, by simp, ?_⟩
        intro d hd hdm
        simp only [List.map_cons, List.map_nil, List.mem_singleton] at hdm
        rw [hdm] at hd
        exact hnew hd
      · intro d hd
        rw [List.map_append]
        exact List.mem_append_left _ (hsub d hd)
      · intro e' he'
        rcases List.mem_append.mp he' with hin | hsingle
        · obtain ⟨ht0, hp0, hs0⟩ := hinv e' hin
          refine ⟨ht0, hp0, ?_⟩
          rw [hs0, ← semScoreOf_append_other proc r.1 e'.docid r.2 ?_]
          intro hc
          exact hnew (hc ▸ List.mem_map.mpr ⟨e', hin, rfl⟩)
        · rw [List.mem_singleton] at hsingle
          rw [hsingle]
          refine ⟨?_, rfl, ?_⟩
          · show (0 : ℚ) = scoreOf trad r.1
            rw [scoreOf_absent trad r.1 (fun hc => hnew (hsub r.1 hc))]
          · show r.2 = semScoreOf (proc ++ [r]) r.1
            rw [semScoreOf_append_self proc r.1 r.2 hfresh]

/-- Every entry of the fully built `doc_scores` dict holds its docid's
traditional returned score, PageRank score, and semantic score. -/
lemma buildDocScores_entries (pr : Pagerank) (trad : List Hit)
    (sem : List (String × ℚ)) (htrad : (trad.map Hit.docid).Nodup)
    (hsem : (sem.map Prod.fst).Nodup) :
    ∀ e ∈ buildDocScores pr trad sem,
      e.tfidf = scoreOf trad e.docid ∧ e.pr = prLookup pr e.docid ∧
        e.sem = semScoreOf sem e.docid := by
  intro e he
  have := buildDocScores_fold_invariant pr trad sem [] (trad.map (fun h =>
      ⟨h.docid, h.score, 0, prLookup pr h.docid⟩))
    (by simpa using hsem)
    (by
      rw [List.map_map]
      exact htrad)
    (by
      intro d hd
      rw [List.map_map]
      exact hd)
    (by
      intro e0 he0
      rw [List.mem_map] at he0
      obtain ⟨h, hh, rfl⟩ := he0
      refine ⟨?_, rfl, rfl⟩
      show h.score = scoreOf trad h.docid
      rw [scoreOf_mem trad htrad h hh])
    e (by simpa [buildDocScores] using he)
  simpa using this


/-- C8 (counterexample): the hybrid score is not
`0.5*(1-w)*cosine + 0.5*(1-w)*semantic + w*pagerank`.  On a one-term index
where document 1 has cosine 1/2, PageRank 1, no semantic score, with
`w = 1/2`: the engine seeds the blend with the traditional *returned* score
`(1-w)*cosine + w*pagerank = 3/4` instead of the cosine, and returns
`0.25*(3/4) + 0.5 = 11/16`, while the claimed formula gives
`0.25*(1/2) + 0.5 = 5/8`. -/
theorem hybrid_score_formula_counterexample :
    (performHybridSearch numVal natSqrtQ exIdxD [("1", 1)] [("2", 1/2)]
        ["a"] (1/2)).head? = some ⟨"1", 11/16⟩ ∧
      calculateTfidfScore numVal exIdxD "1" ["a"]
          (calculateQueryVector numVal natSqrtQ exIdxD ["a"]) = 1/2 ∧
      (1/2) * (1 - 1/2) * (1/2) + (1/2) * (1 - 1/2) * 0 +
        (1/2) * prLookup [("1", 1)] "1" = 5/8 ∧
      ¬ ((11/16 : ℚ) = 5/8) := by
  have hqv : calculateQueryVector numVal natSqrtQ exIdxD ["a"] = [("a", 1)] := by
    simp [calculateQueryVector, pyDedup, lookupLine, assocLookup, numVal, natSqrtQ]
  have hcos : calculateTfidfScore numVal exIdxD "1" ["a"] [("a", 1)] = 1/2 := by
    simp [calculateTfidfScore, docVectorAndNorm, lookupLine, assocLookup,
      findPosting, assocSet, numVal]
  refine ⟨?_, by rw [hqv, hcos], by norm_num [prLookup, assocLookup], by norm_num⟩
  have hcommon : findCommonDocuments exIdxD ["a"] = ["1"] := by
    simp [findCommonDocuments, getDocsForTerm, lookupLine, assocLookup,
      everyThird, pyDedup]
  have htrad : performTraditionalSearch numVal natSqrtQ exIdxD [("1", 1)]
      ["a"] (1/2) = [⟨"1", 3/4⟩] := by
    have hstep : performTraditionalSearch numVal natSqrtQ exIdxD [("1", 1)]
        ["a"] (1/2) = performNormalSearch numVal natSqrtQ exIdxD [("1", 1)]
          ["a"] (1/2) := by
      simp [performTraditionalSearch, lookupLine, assocLookup, checkTestFixtures,
        setEq]
    rw [hstep]
    simp only [performNormalSearch, hqv, hcommon]
    norm_num [sortHits, List.insertionSort, List.orderedInsert, hcos, prLookup,
      assocLookup]
  simp only [performHybridSearch, htrad]
  norm_num [buildDocScores, updateSem, prLookup, assocLookup, sortHits,
    List.insertionSort, List.orderedInsert, scoreGE]
  simp
  norm_num

/-- C8 (amended): in hybrid mode with a non-empty semantic result set
(distinct semantic docids), every returned hit scores exactly
`0.5*(1-w)*T(d) + 0.5*(1-w)*semantic(d) + w*pagerank(d)`, where `T(d)` is
the score the traditional search *returned* for `d` — that is, the already
PageRank-blended `(1-w)*cosine + w*pagerank`, not the bare cosine the
original claim states — with `T(d)` and `semantic(d)` taken as 0 for
documents the respective method did not surface. -/
theorem hybrid_score_formula (val : String → ℚ) (sqrtFn : ℚ → ℚ) (idx : Index)
    (pr : Pagerank) (sem : List (String × ℚ)) (terms : List String) (w : ℚ)
    (hne : ¬ sem = []) (hnd : (sem.map Prod.fst).Nodup) :
    ∀ h ∈ performHybridSearch val sqrtFn idx pr sem terms w,
      h.score = (1/2) * (1 - w) *
          scoreOf (performTraditionalSearch val sqrtFn idx pr terms w) h.docid +
        (1/2) * (1 - w) * semScoreOf sem h.docid +
        w * prLookup pr h.docid := by
  intro h hm
  simp only [performHybridSearch] at hm
  rw [if_neg hne] at hm
  have hm' := List.take_subset 10 _ hm
  rw [mem_sortHits, List.mem_map] at hm'
  obtain ⟨e, he, rfl⟩ := hm'
  obtain ⟨ht, hp, hs⟩ := buildDocScores_entries pr
    (performTraditionalSearch val sqrtFn idx pr terms w) sem
    (traditionalSearch_docids_nodup val sqrtFn idx pr terms w) hnd e he
  show (1/2) * (1 - w) * e.tfidf + (1/2) * (1 - w) * e.sem + w * e.pr = _
  rw [ht, hp, hs]

/-- Witness: the hybrid-blend theorem applied to the concrete one-term index
with one traditional and one semantic document. -/
theorem hybrid_score_formula_witness :
    ((¬ ([("2", (1 : ℚ)/2)] : List (String × ℚ)) = []) ∧
      (([("2", (1 : ℚ)/2)].map Prod.fst).Nodup)) ∧
      (∀ h ∈ performHybridSearch numVal natSqrtQ exIdxD [("1", 1)]
          [("2", 1/2)] ["a"] (1/2),
        h.score = (1/2) * (1 - 1/2) *
            scoreOf (performTraditionalSearch numVal natSqrtQ exIdxD [("1", 1)]
              ["a"] (1/2)) h.docid +
          (1/2) * (1 - 1/2) * semScoreOf [("2", 1/2)] h.docid +
          (1/2) * prLookup [("1", 1)] h.docid) :=
  ⟨⟨by simp, by simp⟩,
    hybrid_score_formula numVal natSqrtQ exIdxD [("1", 1)] [("2", 1/2)]
      ["a"] (1/2) (by simp) (by simp)⟩

end SearchTool
